import Mathlib

/-!
Verification of the GenAI Intelligence Studio ingestion/retrieval core.

Shallow embedding of:
- `src/src/video/video_processor.py` (`VideoProcessor`)
- `src/src/document_ingestion/document_processor.py` (`DocumentProcessor`)
- `src/src/vectorstore/vectorstore.py` (`VectorStore`)

The recursive character text splitter and the splitter-constructor
validation live in the third-party `langchain_text_splitters` package and
are not part of this repository's sources; they are modelled from the
specification (spec.md section 4.1), as are the external format parsers,
the embedding model and the vector-index backend, which the spec treats as
external collaborators.

String-processing is embedded over `List Char` with fuel-based recursion so
that every definition reduces inside the kernel (`decide` / `rfl` work on
concrete inputs).
-/

namespace GenAI

/-! ## Python string primitives

Models of the Python `str` operations the source uses: `sep in s`,
`s.split(sep)`, `s.strip()`, `s.lower()`, `str.startswith`. -/

/-- Model of Python `pat in s` (substring containment). -/
def hasSub (pat : List Char) : List Char → Bool
  | [] => pat.isEmpty
  | c :: t => pat.isPrefixOf (c :: t) || hasSub pat t

/-- Fuel-based worker for `pySplit`; `fuel` bounds the scan length so the
kernel can evaluate it. -/
def pySplitF (sep : List Char) : Nat → List Char → List (List Char)
  | _, [] => [[]]
  | 0, s => [s]
  | fuel + 1, c :: t =>
    if sep.isPrefixOf (c :: t) && !sep.isEmpty then
      [] :: pySplitF sep fuel ((c :: t).drop sep.length)
    else
      match pySplitF sep fuel t with
      | [] => [[c]]
      | h :: r => (c :: h) :: r

/-- Model of Python `s.split(sep)` for a non-empty separator: the pieces
between non-overlapping left-to-right occurrences of `sep`. -/
def pySplit (sep s : String) : List String :=
  (pySplitF sep.data s.data.length s.data).map fun l => ⟨l⟩

/-- Whitespace characters stripped by Python `str.strip()`. -/
def isPyWS (c : Char) : Bool :=
  c = ' ' || c = '\t' || c = '\n' || c = '\x0d' || c = '\x0b' || c = '\x0c'

/-- Model of Python `s.strip()`. -/
def pyStrip (s : String) : String :=
  ⟨((s.data.dropWhile isPyWS).reverse.dropWhile isPyWS).reverse⟩

/-- Model of Python `s.lower()` (ASCII-relevant part). -/
def pyLower (s : String) : String :=
  ⟨s.data.map Char.toLower⟩

/-- Python `lst[-1]` on the (always non-empty) result of `str.split`. -/
def pyLastD (xs : List String) : String := xs.getLastD ""

/-- Python `lst[0]` on the (always non-empty) result of `str.split`. -/
def pyHeadD (xs : List String) : String := xs.headD ""

/-- The text after the last occurrence of `sep` in `s` (all of `s` when
`sep` does not occur), i.e. Python `s.split(sep)[-1]`. -/
def afterLast (sep s : String) : String := pyLastD (pySplit sep s)

/-- The text before the first occurrence of `sep` in `s` (all of `s` when
`sep` does not occur), i.e. Python `s.split(sep)[0]`. -/
def beforeFirst (sep s : String) : String := pyHeadD (pySplit sep s)

/-! ## Data model

`Document` is langchain's `Document` restricted to what the code uses:
a `page_content` string and a string-keyed metadata mapping.  Metadata is
an association list with at most one binding per key (dict semantics via
`setdefault` / `setKey`).  Metadata values are strings or exact decimal
numbers. -/

/-- Exact decimal number `m / 10 ^ e`; stands in for the Python `float`s
the code manipulates (all of which are parsed/printed decimals). -/
structure Dec where
  m : Int
  e : Nat
deriving DecidableEq, Repr

/-- The rational value denoted by a `Dec`. -/
def Dec.val (d : Dec) : ℚ := (d.m : ℚ) / 10 ^ d.e

/-- A metadata value: a string or an (exact decimal) number. -/
inductive MVal where
  | str : String → MVal
  | num : Dec → MVal
deriving DecidableEq, Repr

/-- Metadata mapping, as an association list. -/
abbrev Meta := List (String × MVal)

/-- Whether key `k` is present (Python `k in d`). -/
def hasKey (k : String) (m : Meta) : Bool := (m.lookup k).isSome

/-- Python `dict.setdefault k v`: insert `(k, v)` only when `k` is absent. -/
def setdefault (k : String) (v : MVal) (m : Meta) : Meta :=
  if hasKey k m then m else m ++ [(k, v)]

/-- Python `d[k] = v`: replace the binding of `k`, or append it. -/
def setKey (k : String) (v : MVal) : Meta → Meta
  | [] => [(k, v)]
  | (k', v') :: rest => if k' = k then (k', v) :: rest else (k', v') :: setKey k v rest

/-- langchain `Document`: page content plus metadata. -/
structure Document where
  content : String
  meta : Meta
deriving DecidableEq, Repr

/-! ## Recursive character text splitter

Modelled from the spec (spec.md section 4.1): the splitter itself is the
third-party `RecursiveCharacterTextSplitter`, not part of this
repository's sources.  Splitting: try each separator in priority order
(paragraph break, line break, sentence-ending punctuation plus space,
space); pieces still longer than `chunk_size` are re-split with the next
separator; when no separator remains, fall back to hard character slicing.
Separators stay attached to the front of the following piece, so that the
concatenation of the pieces is the original text.  Merging: greedily pack
consecutive pieces into windows of at most `chunk_size` characters,
starting each new window with the trailing `overlap` characters of the
previous window as long as that does not itself exceed `chunk_size`; no
empty chunk is emitted. -/

/-- Fuel-based worker for `hardSlice`. -/
def hardSliceF (n : Nat) : Nat → List Char → List (List Char)
  | 0, s => [s]
  | fuel + 1, s =>
    if s.length ≤ n || n == 0 then [s]
    else s.take n :: hardSliceF n fuel (s.drop n)

/-- Hard character slicing: cut `s` into consecutive pieces of at most `n`
characters (the final fallback when every separator is exhausted). -/
def hardSlice (n : Nat) (s : List Char) : List (List Char) :=
  hardSliceF n s.length s

/-- Prepend `x` onto the first piece of a piece list. -/
def prependHead (x : List Char) : List (List Char) → List (List Char)
  | [] => [x]
  | h :: r => (x ++ h) :: r

/-- Prepend character `c` onto the first piece of a piece list. -/
def consHead (c : Char) : List (List Char) → List (List Char)
  | [] => [[c]]
  | h :: r => (c :: h) :: r

/-- Fuel-based worker for `splitKeep`. -/
def splitKeepF (sep : List Char) : Nat → List Char → List (List Char)
  | _, [] => [[]]
  | 0, s => [s]
  | fuel + 1, c :: t =>
    if sep.isPrefixOf (c :: t) && !sep.isEmpty then
      [] :: prependHead sep (splitKeepF sep fuel ((c :: t).drop sep.length))
    else
      consHead c (splitKeepF sep fuel t)

/-- Split `s` at occurrences of `sep`, keeping each separator attached to
the front of the following piece (so the pieces concatenate back to `s`). -/
def splitKeep (sep s : List Char) : List (List Char) :=
  splitKeepF sep s.length s

/-- The separator priority list of the modelled splitter (spec section
4.1): paragraph break, line break, sentence-ending punctuation plus
space, space; the empty separator (split anywhere) is the `hardSlice`
fallback. -/
def defaultSeps : List (List Char) :=
  ["\n\n".data, "\n".data, ". ".data, "! ".data, "? ".data, " ".data]

/-- Recursively split `s` into atomic pieces of length at most `cs`:
pieces still over-long after one separator are re-split with the next;
when no separator remains, hard-slice. -/
def splitRec : List (List Char) → Nat → List Char → List (List Char)
  | [], cs, s => hardSlice cs s
  | sep :: rest, cs, s =>
    (splitKeep sep s).flatMap fun p =>
      if p.length ≤ cs then [p] else splitRec rest cs p

/-- The last `n` characters of `l` (the overlap window). -/
def suffN (n : Nat) (l : List Char) : List Char := l.drop (l.length - n)

/-- Merge atomic pieces into windows of at most `cs` characters.  `cur` is
the window under construction.  When a piece does not fit, the current
window is emitted and the next window starts with the trailing `ov`
characters of the emitted window, unless re-including them would itself
exceed `cs`.  An over-long atomic piece (possible only when the piece list
was not produced by `splitRec` with the hard-slice fallback) is kept whole
as its own chunk.  No empty chunk is emitted. -/
def mergeLoop (cs ov : Nat) : List (List Char) → List Char → List (List Char)
  | [], cur => if cur.isEmpty then [] else [cur]
  | p :: ps, cur =>
    if (cur ++ p).length ≤ cs then
      mergeLoop cs ov ps (cur ++ p)
    else if cur.isEmpty then
      p :: mergeLoop cs ov ps []
    else
      cur :: mergeLoop cs ov ps
        (if (suffN ov cur ++ p).length ≤ cs then suffN ov cur ++ p else p)

/-- Modelled from the spec: `RecursiveCharacterTextSplitter.split_text`
with the given `chunk_size` and `chunk_overlap`. -/
def split_text (cs ov : Nat) (s : List Char) : List (List Char) :=
  mergeLoop cs ov (splitRec defaultSeps cs s) []

/-- Splitter configuration held by a processor (`chunk_size`,
`chunk_overlap` of a validated `RecursiveCharacterTextSplitter`). -/
structure SplitterCfg where
  chunk_size : Nat
  chunk_overlap : Nat
deriving DecidableEq, Repr

/-- Configuration error raised by the splitter constructor. -/
inductive ConfigError where
  | invalidParams : ConfigError
deriving DecidableEq, Repr

/-- Modelled from the spec: the `RecursiveCharacterTextSplitter`
constructor, which validates its parameters (spec sections 4.1 and 7:
`chunk_size ≤ 0` or `overlap ≥ chunk_size` is a configuration error
reported at construction time, not silently clamped); the constructor
itself lives in the third-party splitter package, not under `src/`. -/
def mkSplitter (chunk_size chunk_overlap : Int) : Except ConfigError SplitterCfg :=
  if chunk_size ≤ 0 then .error .invalidParams
  else if chunk_size ≤ chunk_overlap then .error .invalidParams
  else .ok ⟨chunk_size.toNat, chunk_overlap.toNat⟩

/-- `DocumentProcessor.__init__` stores the parameters and constructs the
splitter (document_processor.py lines 24-30). -/
structure DocumentProcessor where
  chunk_size : Int
  chunk_overlap : Int
  splitter : SplitterCfg
deriving DecidableEq, Repr

/-- `DocumentProcessor(chunk_size, chunk_overlap)`. -/
def DocumentProcessor.init (chunk_size chunk_overlap : Int) :
    Except ConfigError DocumentProcessor :=
  (mkSplitter chunk_size chunk_overlap).map fun sp => ⟨chunk_size, chunk_overlap, sp⟩

/-- `VideoProcessor.__init__` constructs its own splitter
(video_processor.py lines 15-19). -/
structure VideoProcessor where
  splitter : SplitterCfg
deriving DecidableEq, Repr

/-- `VideoProcessor(chunk_size, chunk_overlap)`. -/
def VideoProcessor.init (chunk_size chunk_overlap : Int) :
    Except ConfigError VideoProcessor :=
  (mkSplitter chunk_size chunk_overlap).map fun sp => ⟨sp⟩

/-- `splitter.split_documents(documents)`: split each document's content
independently; every chunk inherits its parent document's metadata
(document_processor.py lines 153-154, video_processor.py lines 56-58). -/
def split_documents (cs ov : Nat) (documents : List Document) : List Document :=
  documents.flatMap fun d =>
    (split_text cs ov d.content.data).map fun c => ⟨⟨c⟩, d.meta⟩

/-! ## VideoProcessor (video_processor.py) -/

/-- Error raised by `extract_video_id` for an unrecognized URL. -/
inductive VideoError where
  | invalidLink : VideoError
deriving DecidableEq, Repr

/-- `VideoProcessor.extract_video_id` (video_processor.py lines 21-28):
`url.split("watch?v=")[-1].split("&")[0].strip()` when `"watch?v=" in
url`, else `url.split("youtu.be/")[-1].split("?")[0].strip()` when
`"youtu.be/" in url`, else `ValueError("Invalid YouTube link")`. -/
def extract_video_id (url : String) : Except VideoError String :=
  if hasSub "watch?v=".data url.data then
    .ok (pyStrip (pyHeadD (pySplit "&" (pyLastD (pySplit "watch?v=" url)))))
  else if hasSub "youtu.be/".data url.data then
    .ok (pyStrip (pyHeadD (pySplit "?" (pyLastD (pySplit "youtu.be/" url)))))
  else
    .error .invalidLink

/-- One transcript entry from the external transcript provider
(`{"text": ..., "start": ..., "duration": ...}`); the float fields are
exact decimals in the model. -/
structure TranscriptEntry where
  text : String
  start : Dec
  duration : Dec
deriving DecidableEq, Repr

/-- Round-half-even of `a / den` (`den > 0`), the rounding used by
Python's fixed-point formatting. -/
def rheDiv (a den : Int) : Int :=
  let f := a.fdiv den
  let r := a.fmod den
  if 2 * r < den then f
  else if den < 2 * r then f + 1
  else if f.fmod 2 = 0 then f else f + 1

/-- Fuel-based decimal digits of a natural number (most significant
first), accumulated into `acc`. -/
def natReprAux : Nat → Nat → List Char → List Char
  | 0, n, acc => Char.ofNat (48 + n % 10) :: acc
  | fuel + 1, n, acc =>
    if n < 10 then Char.ofNat (48 + n) :: acc
    else natReprAux fuel (n / 10) (Char.ofNat (48 + n % 10) :: acc)

/-- Decimal rendering of a natural number. -/
def natRepr (n : Nat) : String := ⟨natReprAux n n []⟩

/-- Python `f"{x:.1f}"` on the decimal `d`: the value rounded (half-even)
to one decimal place. -/
def fix1 (d : Dec) : String :=
  let n := rheDiv (d.m * 10) ((10 : Int) ^ d.e)
  let a := n.natAbs
  (if n < 0 then "-" else "") ++ natRepr (a / 10) ++ "." ++ natRepr (a % 10)

/-- Python `"\n".join`. -/
def joinNL : List String → String
  | [] => ""
  | [s] => s
  | s :: rest => s ++ "\n" ++ joinNL rest

/-- `VideoProcessor.transcript_to_document` (video_processor.py lines
39-54): render each entry as `"[<start:.1f>s] <text>"`, join with
newlines, and attach `source` / `type` metadata. -/
def transcript_to_document (transcript : List TranscriptEntry) (url : String) : Document :=
  ⟨joinNL (transcript.map fun e => "[" ++ fix1 e.start ++ "s] " ++ e.text),
   [("source", .str url), ("type", .str "youtube_transcript")]⟩

/-- `VideoProcessor.chunk_document` (video_processor.py lines 56-58). -/
def chunk_document (cfg : SplitterCfg) (doc : Document) : List Document :=
  split_documents cfg.chunk_size cfg.chunk_overlap [doc]

/-- Attempt to match the regex `\[(\d+\.\d+)s\]` at the start of `cs`,
returning the captured decimal.  The pattern's digit runs are matched
greedily; backtracking cannot extend a match here because each digit run
is followed by a non-digit requirement, so greedy matching agrees with
`re.search` semantics at each position. -/
def matchTsAt (cs : List Char) : Option Dec :=
  match cs with
  | '[' :: rest =>
    let d1 := rest.takeWhile Char.isDigit
    let r1 := rest.dropWhile Char.isDigit
    if d1.isEmpty then none
    else
      match r1 with
      | '.' :: rest2 =>
        let d2 := rest2.takeWhile Char.isDigit
        let r2 := rest2.dropWhile Char.isDigit
        if d2.isEmpty then none
        else
          match r2 with
          | 's' :: ']' :: _ =>
            some ⟨((d1 ++ d2).foldl (fun acc c => 10 * acc + (c.toNat - 48)) 0 : Nat),
                  d2.length⟩
          | _ => none
      | _ => none
  | _ => none

/-- `re.search(r"\[(\d+\.\d+)s\]", s)`: the leftmost match, as the
captured decimal value. -/
def findTs : List Char → Option Dec
  | [] => none
  | c :: t =>
    match matchTsAt (c :: t) with
    | some d => some d
    | none => findTs t

/-- `VideoProcessor.process_video` (video_processor.py lines 60-73), with
the already-fetched transcript passed in (the network fetch is an external
collaborator): merge the transcript into one document, split it, then set
`metadata["timestamp_start"]` on each chunk whose content matches
`\[(\d+\.\d+)s\]` (first occurrence); chunks without a match are left
unchanged. -/
def process_video (cfg : SplitterCfg) (transcript : List TranscriptEntry)
    (url : String) : List Document :=
  let base := transcript_to_document transcript url
  (chunk_document cfg base).map fun ch =>
    match findTs ch.content.data with
    | some d => { ch with meta := setKey "timestamp_start" (.num d) ch.meta }
    | none => ch

/-! ## DocumentProcessor loaders (document_processor.py)

The format parsers (PyPDFLoader, TextLoader, Docx2txtLoader, CSVLoader,
UnstructuredMarkdownLoader, UnstructuredHTMLLoader, WebBaseLoader, and
`json.load` serialization) are external collaborators; each is modelled as
an abstract function producing the documents (or, for JSON, the serialized
text) that the handler then post-processes. -/

/-- The external parsers, abstracted. -/
structure Parsers where
  pdf : String → List Document
  txt : String → List Document
  docx : String → List Document
  csv : String → List Document
  json_text : String → String
  markdown : String → List Document
  html : String → List Document
  web : String → List Document

/-- `DocumentProcessor.load_from_url` (lines 34-36): no post-processing. -/
def load_from_url (P : Parsers) (url : String) : List Document :=
  P.web url

/-- `DocumentProcessor.load_from_pdf` (lines 38-43): ensure
`metadata["source"]`. -/
def load_from_pdf (P : Parsers) (file_path : String) : List Document :=
  (P.pdf file_path).map fun d =>
    { d with meta := setdefault "source" (.str file_path) d.meta }

/-- `DocumentProcessor.load_from_txt` (lines 45-50): ensure
`metadata["source"]`. -/
def load_from_txt (P : Parsers) (file_path : String) : List Document :=
  (P.txt file_path).map fun d =>
    { d with meta := setdefault "source" (.str file_path) d.meta }

/-- `DocumentProcessor.load_from_docx` (lines 52-59): ensure
`metadata["source"]`, assign `metadata["file_type"] = "docx"`. -/
def load_from_docx (P : Parsers) (file_path : String) : List Document :=
  (P.docx file_path).map fun d =>
    { d with meta := setKey "file_type" (.str "docx")
                       (setdefault "source" (.str file_path) d.meta) }

/-- `DocumentProcessor.load_from_csv` (lines 61-68). -/
def load_from_csv (P : Parsers) (file_path : String) : List Document :=
  (P.csv file_path).map fun d =>
    { d with meta := setKey "file_type" (.str "csv")
                       (setdefault "source" (.str file_path) d.meta) }

/-- `DocumentProcessor.load_from_json` (lines 70-85): one document whose
content is the serialized JSON, with fixed metadata. -/
def load_from_json (P : Parsers) (file_path : String) : List Document :=
  [⟨P.json_text file_path, [("source", .str file_path), ("file_type", .str "json")]⟩]

/-- `DocumentProcessor.load_from_markdown` (lines 87-94). -/
def load_from_markdown (P : Parsers) (file_path : String) : List Document :=
  (P.markdown file_path).map fun d =>
    { d with meta := setKey "file_type" (.str "markdown")
                       (setdefault "source" (.str file_path) d.meta) }

/-- `DocumentProcessor.load_from_html` (lines 96-103). -/
def load_from_html (P : Parsers) (file_path : String) : List Document :=
  (P.html file_path).map fun d =>
    { d with meta := setKey "file_type" (.str "html")
                       (setdefault "source" (.str file_path) d.meta) }

/-- `DocumentProcessor.load_from_python` (lines 105-112): the text loader
plus `metadata["file_type"] = "python"`. -/
def load_from_python (P : Parsers) (file_path : String) : List Document :=
  (P.txt file_path).map fun d =>
    { d with meta := setKey "file_type" (.str "python")
                       (setdefault "source" (.str file_path) d.meta) }

/-- The extension table of `load_documents` (lines 119-131). -/
def extension_loaders : List (String × (Parsers → String → List Document)) :=
  [(".pdf", load_from_pdf), (".txt", load_from_txt),
   (".docx", load_from_docx), (".doc", load_from_docx),
   (".csv", load_from_csv), (".json", load_from_json),
   (".md", load_from_markdown), (".markdown", load_from_markdown),
   (".html", load_from_html), (".htm", load_from_html),
   (".py", load_from_python)]

/-- Python `str.startswith("http://") or str.startswith("https://")`
(line 135). -/
def isHttp (src : String) : Bool :=
  "http://".data.isPrefixOf src.data || "https://".data.isPrefixOf src.data

/-- The final path component, `pathlib.PurePath(s).name`. -/
def pyBasename (s : String) : String := (pySplit "/" s).getLastD s

/-- `pathlib.PurePath(s).suffix`: the extension from the last dot of the
basename, provided that dot is neither the first nor the last character. -/
def pySuffix (s : String) : String :=
  let b := (pyBasename s).data
  let k := (b.reverse.takeWhile (fun c => c ≠ '.')).length
  if k = b.length then ""
  else if 0 < b.length - 1 - k ∧ 0 < k then ⟨b.drop (b.length - 1 - k)⟩ else ""

/-- Error raised by `load_documents` for an unsupported source; carries
the offending source string (lines 145-148). -/
inductive LoadError where
  | unsupported : String → LoadError
deriving DecidableEq, Repr

/-- `DocumentProcessor.load_documents` (lines 114-149): per source, URLs
go to the web loader, otherwise the lowered suffix is resolved against
`extension_loaders`; an unrecognized suffix raises, discarding every
result accumulated so far (the exception propagates out of the loop). -/
def load_documents (P : Parsers) (sources : List String) :
    Except LoadError (List Document) :=
  match sources with
  | [] => .ok []
  | src :: rest =>
    if isHttp src then
      (load_documents P rest).map fun ds => load_from_url P src ++ ds
    else
      match extension_loaders.lookup (pyLower (pySuffix src)) with
      | some loader => (load_documents P rest).map fun ds => loader P src ++ ds
      | none => .error (.unsupported src)

/-- A source accepted by `load_documents`: an http(s) URL or a path whose
lowered suffix is in the extension table. -/
def supported (src : String) : Bool :=
  isHttp src || (extension_loaders.lookup (pyLower (pySuffix src))).isSome

/-! ## VectorStore (vectorstore.py)

The HuggingFace embedding model and the Pinecone index are external
collaborators; the stored vectors are modelled as per-namespace document
lists and similarity as an abstract integer score.  `as_retriever()` with
no arguments yields a retriever returning its backend-default number of
results (4), independent of any caller-supplied `k`. -/

/-- The default number of results of `as_retriever()` (no
`search_kwargs`). -/
def defaultK : Nat := 4

/-- State of a `VectorStore`: current namespace and the per-namespace
stored documents. -/
structure VSState where
  ns : String
  store : List (String × List Document)
deriving Repr

/-- The documents stored under namespace `ns`. -/
def docsInNs (store : List (String × List Document)) (ns : String) : List Document :=
  (store.lookup ns).getD []

/-- Insert `d` into a list already ranked by descending score. -/
def insertRanked (score : Document → Int) (d : Document) :
    List Document → List Document
  | [] => [d]
  | e :: es =>
    if score e < score d then d :: e :: es else e :: insertRanked score d es

/-- Rank documents by descending similarity score to the query. -/
def rankDocs (sim : String → Document → Int) (query : String)
    (docs : List Document) : List Document :=
  docs.foldr (insertRanked (sim query)) []

/-- `VectorStore.retrieve` (vectorstore.py lines 59-61): invoke the
default retriever on the query.  The parameter `k` is accepted but never
passed to the retriever, which returns its default number of results. -/
def retrieve (sim : String → Document → Int) (st : VSState)
    (query : String) (k : Nat) : List Document :=
  (rankDocs sim query (docsInNs st.store st.ns)).take defaultK

/-- Error raised by `add_documents` on empty input. -/
inductive VSError where
  | emptyInput : VSError
deriving DecidableEq, Repr

/-- A call to an external backend (embedding plus index upsert). -/
inductive BackendCall where
  | embedUpsert : List Document → String → BackendCall
deriving Repr

/-- Append documents under namespace `ns` in the store. -/
def storeAdd : List (String × List Document) → String → List Document →
    List (String × List Document)
  | [], ns, docs => [(ns, docs)]
  | (n, ds) :: rest, ns, docs =>
    if n = ns then (n, ds ++ docs) :: rest else (n, ds) :: storeAdd rest ns docs

/-- `VectorStore.add_documents` (vectorstore.py lines 42-51): raise on an
empty document list before any backend call; otherwise embed and upsert,
returning the new state and the backend calls performed. -/
def add_documents (st : VSState) (documents : List Document) :
    Except VSError (VSState × List BackendCall) :=
  if documents.isEmpty then .error .emptyInput
  else
    .ok ({ st with store := storeAdd st.store st.ns documents },
         [.embedUpsert documents st.ns])

/-! ## Concrete instances used by witnesses and counterexamples -/

/-- Parsers whose format handlers each yield one document with empty
metadata (an underlying parser that classifies nothing). -/
def oneDocParsers : Parsers :=
  ⟨fun _ => [⟨"content", []⟩], fun _ => [⟨"content", []⟩],
   fun _ => [⟨"content", []⟩], fun _ => [⟨"content", []⟩],
   fun _ => "content",
   fun _ => [⟨"content", []⟩], fun _ => [⟨"content", []⟩],
   fun _ => [⟨"content", []⟩]⟩

/-- A similarity score that ranks all documents equally. -/
def simZero : String → Document → Int := fun _ _ => 0

/-- A store holding five documents under namespace `"ns"`. -/
def stFive : VSState :=
  ⟨"ns", [("ns", [⟨"d1", []⟩, ⟨"d2", []⟩, ⟨"d3", []⟩, ⟨"d4", []⟩, ⟨"d5", []⟩])]⟩

/-! ## Splitter lemmas -/

/-- Every piece produced by hard slicing with positive width `n` has
length at most `n` (given enough fuel). -/
theorem hardSliceF_bound (n : Nat) (hn : 0 < n) :
    ∀ (fuel : Nat) (s : List Char), s.length ≤ fuel →
      ∀ p ∈ hardSliceF n fuel s, p.length ≤ n := by
  intro fuel
  induction fuel with
  | zero =>
    intro s hs p hp
    simp only [hardSliceF, List.mem_singleton] at hp
    subst hp
    omega
  | succ fuel ih =>
    intro s hs p hp
    simp only [hardSliceF] at hp
    by_cases h : s.length ≤ n || n == 0
    · rw [if_pos h] at hp
      simp only [List.mem_singleton] at hp
      subst hp
      rcases Bool.or_eq_true_iff.mp h with h' | h'
      · exact of_decide_eq_true h'
      · exact absurd (beq_iff_eq.mp h') (by omega)
    · rw [if_neg h] at hp
      rcases List.mem_cons.mp hp with h' | h'
      · subst h'
        simp [List.length_take]
      · have hlen : (s.drop n).length ≤ fuel := by
          simp only [List.length_drop]
          omega
        exact ih (s.drop n) hlen p h'

/-- Every atomic piece produced by the recursive splitter has length at
most `cs` when `cs` is positive: over-long pieces are always re-split,
down to the hard-slicing fallback. -/
theorem splitRec_bound (seps : List (List Char)) (cs : Nat) (hcs : 0 < cs) :
    ∀ (s : List Char), ∀ p ∈ splitRec seps cs s, p.length ≤ cs := by
  induction seps with
  | nil =>
    intro s p hp
    exact hardSliceF_bound cs hcs s.length s le_rfl p hp
  | cons sep rest ih =>
    intro s p hp
    simp only [splitRec, List.mem_flatMap] at hp
    obtain ⟨q, _, hpq⟩ := hp
    by_cases h : q.length ≤ cs
    · rw [if_pos h] at hpq
      simp only [List.mem_singleton] at hpq
      subst hpq
      exact h
    · rw [if_neg h] at hpq
      exact ih q p hpq

/-- Every chunk emitted by the merge loop has length at most `cs`, given
that every piece and the window under construction do. -/
theorem mergeLoop_bound (cs ov : Nat) :
    ∀ (ps : List (List Char)) (cur : List Char),
      (∀ p ∈ ps, p.length ≤ cs) → cur.length ≤ cs →
      ∀ c ∈ mergeLoop cs ov ps cur, c.length ≤ cs := by
  intro ps
  induction ps with
  | nil =>
    intro cur _ hcur c hc
    simp only [mergeLoop] at hc
    by_cases h : cur.isEmpty
    · rw [if_pos h] at hc
      cases hc
    · rw [if_neg h] at hc
      simp only [List.mem_singleton] at hc
      subst hc
      exact hcur
  | cons p ps ih =>
    intro cur hps hcur c hc
    have hp : p.length ≤ cs := hps p (List.mem_cons_self p ps)
    have hps' : ∀ q ∈ ps, q.length ≤ cs := fun q hq => hps q (List.mem_cons_of_mem _ hq)
    simp only [mergeLoop] at hc
    by_cases h1 : (cur ++ p).length ≤ cs
    · rw [if_pos h1] at hc
      exact ih (cur ++ p) hps' h1 c hc
    · rw [if_neg h1] at hc
      by_cases h2 : cur.isEmpty
      · exfalso
        have : cur = [] := List.isEmpty_iff.mp h2
        subst this
        simp only [List.nil_append] at h1
        exact h1 hp
      · rw [if_neg h2] at hc
        rcases List.mem_cons.mp hc with h' | h'
        · subst h'
          exact hcur
        · refine ih _ hps' ?_ c h'
          by_cases h3 : (suffN ov cur ++ p).length ≤ cs
          · rw [if_pos h3]
            exact h3
          · rw [if_neg h3]
            exact hp

/-- When the merge loop starts with a non-empty window, its first emitted
chunk extends that window. -/
theorem mergeLoop_head (cs ov : Nat) :
    ∀ (ps : List (List Char)) (cur : List Char), cur ≠ [] →
      ∃ r, (mergeLoop cs ov ps cur)[0]? = some (cur ++ r) := by
  intro ps
  induction ps with
  | nil =>
    intro cur hcur
    refine ⟨[], ?_⟩
    simp only [mergeLoop, List.isEmpty_iff]
    rw [if_neg hcur]
    simp
  | cons p ps ih =>
    intro cur hcur
    simp only [mergeLoop]
    by_cases h1 : (cur ++ p).length ≤ cs
    · rw [if_pos h1]
      obtain ⟨r, hr⟩ := ih (cur ++ p) (by simp [hcur])
      exact ⟨p ++ r, by rw [hr, List.append_assoc]⟩
    · rw [if_neg h1]
      have h2 : ¬ cur.isEmpty := by
        simpa [List.isEmpty_iff] using hcur
      rw [if_neg h2]
      exact ⟨[], by simp⟩

/-- Overlap equality for consecutive chunks of the merge loop: when chunk
`i` is at least `ov` long and chunk `i+1` together with the overlap fits
in `cs`, the next window necessarily re-included the trailing `ov`
characters of chunk `i`, so they are a prefix of chunk `i+1`. -/
theorem mergeLoop_consec (cs ov : Nat) :
    ∀ (ps : List (List Char)) (cur : List Char),
      (∀ p ∈ ps, p.length ≤ cs) → cur.length ≤ cs →
      ∀ (i : Nat) (c c' : List Char),
        (mergeLoop cs ov ps cur)[i]? = some c →
        (mergeLoop cs ov ps cur)[i + 1]? = some c' →
        ov ≤ c.length → ov + c'.length ≤ cs →
        suffN ov c = c'.take ov := by
  intro ps
  induction ps with
  | nil =>
    intro cur _ _ i c c' _ hc' _ _
    exfalso
    simp only [mergeLoop] at hc'
    by_cases h : cur.isEmpty
    · rw [if_pos h] at hc'
      simp at hc'
    · rw [if_neg h] at hc'
      rw [List.getElem?_cons_succ] at hc'
      simp at hc'
  | cons p ps ih =>
    intro cur hps hcur i c c' hc hc' hov hfit
    have hp : p.length ≤ cs := hps p (List.mem_cons_self p ps)
    have hps' : ∀ q ∈ ps, q.length ≤ cs := fun q hq => hps q (List.mem_cons_of_mem _ hq)
    simp only [mergeLoop] at hc hc'
    by_cases h1 : (cur ++ p).length ≤ cs
    · rw [if_pos h1] at hc hc'
      exact ih (cur ++ p) hps' h1 i c c' hc hc' hov hfit
    · rw [if_neg h1] at hc hc'
      by_cases h2 : cur.isEmpty
      · exfalso
        have : cur = [] := List.isEmpty_iff.mp h2
        subst this
        simp only [List.nil_append] at h1
        exact h1 hp
      · rw [if_neg h2] at hc hc'
        have hpne : p ≠ [] := by
          intro h
          subst h
          simp only [List.append_nil] at h1
          exact h1 hcur
        cases i with
        | zero =>
          rw [List.getElem?_cons_zero] at hc
          injection hc with hc
          rw [← hc] at hov ⊢
          rw [List.getElem?_cons_succ] at hc'
          by_cases h3 : (suffN ov cur ++ p).length ≤ cs
          · rw [if_pos h3] at hc'
            have hstartne : suffN ov cur ++ p ≠ [] := by simp [hpne]
            obtain ⟨r, hr⟩ := mergeLoop_head cs ov ps _ hstartne
            rw [hr] at hc'
            injection hc' with hc'
            rw [← hc']
            have hlen : (suffN ov cur).length = ov := by
              simp only [suffN, List.length_drop]
              omega
            rw [List.append_assoc, List.take_left' hlen]
          · rw [if_neg h3] at hc'
            exfalso
            obtain ⟨r, hr⟩ := mergeLoop_head cs ov ps p hpne
            rw [hr] at hc'
            injection hc' with hc'
            rw [← hc'] at hfit
            have hsuf : (suffN ov cur).length ≤ ov := by
              simp only [suffN, List.length_drop]
              omega
            simp only [List.length_append] at h3 hfit
            omega
        | succ j =>
          rw [List.getElem?_cons_succ] at hc hc'
          refine ih _ hps' ?_ j c c' hc hc' hov hfit
          by_cases h3 : (suffN ov cur ++ p).length ≤ cs
          · rw [if_pos h3]
            exact h3
          · rw [if_neg h3]
            exact hp

/-! ## Claim theorems -/

/-- C1: every chunk produced by `split_documents` has content length at
most `chunk_size` (for any input documents and any overlap, with a
positive `chunk_size` as guaranteed by the validated constructor).  In
the spec-modelled splitter the claim's exception — a single atomic token
longer than `chunk_size` kept whole — never arises, because the final
fallback hard-slices indivisible tokens; the unconditional bound
therefore implies the claim as stated. -/
theorem c1_chunk_bound (cs ov : Nat) (docs : List Document) (ch : Document)
    (hcs : 0 < cs) (hch : ch ∈ split_documents cs ov docs) :
    ch.content.length ≤ cs := by
  simp only [split_documents, List.mem_flatMap, List.mem_map] at hch
  obtain ⟨d, _, c, hc, rfl⟩ := hch
  have hb := mergeLoop_bound cs ov (splitRec defaultSeps cs d.content.data) []
    (splitRec_bound defaultSeps cs hcs d.content.data) (by simp) c hc
  simpa [String.length] using hb

/-- C1 witness: on the document `"hello world"` with `chunk_size = 5`,
`chunk_overlap = 2`, the chunk `"hello"` is produced and is within the
bound. -/
theorem c1_chunk_bound_witness :
    (Document.mk "hello" []).content.length ≤ 5 :=
  c1_chunk_bound 5 2 [⟨"hello world", []⟩] ⟨"hello", []⟩ (by decide) (by decide)

/-- C2 counterexample: splitting
`"aaaaaaaa\n\nbbbbbbbb"` with `chunk_size = 10`, `overlap = 5` produces
the consecutive chunks `"aaaaaaaa"` and `"\n\nbbbbbbbb"`, both of length
at least 5, whose overlap-5 suffix and prefix differ: re-including the
overlap would have exceeded the chunk size, so the merger started the
second window without it. -/
theorem c2_overlap_counterexample :
    split_text 10 5 "aaaaaaaa\n\nbbbbbbbb".data
        = ["aaaaaaaa".data, "\n\nbbbbbbbb".data] ∧
      5 ≤ "aaaaaaaa".data.length ∧ 5 ≤ "\n\nbbbbbbbb".data.length ∧
      suffN 5 "aaaaaaaa".data ≠ "\n\nbbbbbbbb".data.take 5 := by
  refine ⟨by decide, by decide, by decide, by decide⟩

/-- C2 (amended): for consecutive chunks `c` (at index `i`) and `c'` (at
index `i+1`) of the same parent text, the trailing `overlap` characters of
`c` equal the leading `overlap` characters of `c'` whenever `c` is at
least `overlap` long and `overlap + length c' ≤ chunk_size` — i.e.
whenever the merger could, and therefore did, start the window of `c'` by
re-including the overlap.  When re-inclusion would exceed `chunk_size` the
window starts without it and the equality can fail (see the
counterexample). -/
theorem c2_overlap_amended (cs ov : Nat) (s : List Char) (i : Nat)
    (c c' : List Char) (hcs : 0 < cs)
    (hc : (split_text cs ov s)[i]? = some c)
    (hc' : (split_text cs ov s)[i + 1]? = some c')
    (hov : ov ≤ c.length) (hfit : ov + c'.length ≤ cs) :
    suffN ov c = c'.take ov :=
  mergeLoop_consec cs ov (splitRec defaultSeps cs s) []
    (splitRec_bound defaultSeps cs hcs s) (by simp) i c c' hc hc' hov hfit

/-- C2 amended witness: in `split_text 5 2 "hello world"` the consecutive
chunks `" worl"` and `"rld"` satisfy the side conditions and share the
overlap `"rl"`. -/
theorem c2_overlap_amended_witness :
    suffN 2 " worl".data = "rld".data.take 2 :=
  c2_overlap_amended 5 2 "hello world".data 1 " worl".data "rld".data
    (by decide) (by decide) (by decide) (by decide) (by decide)

/-- C3 (code bug): `VectorStore.retrieve` does not return at most `k`
results — the parameter `k` is accepted but never passed to the retriever
(`retriever.invoke(query)` on the argument-less `as_retriever()`), so the
result is identical for every `k` and has the retriever's default length
4 whenever at least 4 documents are stored in the namespace; with
`k = 1` and five stored documents the call returns 4 > 1 chunks. -/
theorem c3_retrieve_ignores_k :
    (∀ (sim : String → Document → Int) (st : VSState) (query : String)
        (k k' : Nat), retrieve sim st query k = retrieve sim st query k') ∧
      (retrieve simZero stFive "q" 1).length = 4 ∧
      1 < (retrieve simZero stFive "q" 1).length := by
  refine ⟨fun _ _ _ _ _ => rfl, by decide, by decide⟩

/-- C4: constructing `DocumentProcessor` or `VideoProcessor` with
`chunk_size ≤ 0` or `overlap ≥ chunk_size` fails with the configuration
error at construction time, and on success the stored parameters are
exactly the ones supplied (never clamped).  The splitter-constructor
validation is modelled from the spec (spec.md sections 4.1 and 7), as the
third-party splitter package is not part of this repository's sources. -/
theorem c4_constructor_validation :
    (∀ cs ov : Int, cs ≤ 0 ∨ cs ≤ ov →
        DocumentProcessor.init cs ov = .error .invalidParams ∧
          VideoProcessor.init cs ov = .error .invalidParams) ∧
      (∀ (cs ov : Int) (dp : DocumentProcessor),
        DocumentProcessor.init cs ov = .ok dp →
          dp.chunk_size = cs ∧ dp.chunk_overlap = ov ∧ 0 < cs ∧ ov < cs) := by
  constructor
  · intro cs ov h
    constructor <;>
      · simp only [DocumentProcessor.init, VideoProcessor.init, mkSplitter]
        split_ifs with h1 h2 <;> first | rfl | omega
  · intro cs ov dp h
    simp only [DocumentProcessor.init, mkSplitter] at h
    split_ifs at h with h1 h2
    · simp [Except.map] at h
    · simp [Except.map] at h
    · simp only [Except.map, Except.ok.injEq] at h
      rw [← h]
      exact ⟨rfl, rfl, by omega, by omega⟩

/-- C4 witness: both constructors reject `chunk_size = 0`,
`chunk_overlap = 0`. -/
theorem c4_constructor_validation_witness :
    DocumentProcessor.init 0 0 = .error .invalidParams ∧
      VideoProcessor.init 0 0 = .error .invalidParams :=
  c4_constructor_validation.1 0 0 (Or.inl (by decide))

/-- C7: `extract_video_id` returns `"abc123"` for the `watch?v=` URL with
a trailing `&t=5`, returns `"abc123"` for the `youtu.be/` URL with a
trailing `?t=5`, and fails with the invalid-link error for every URL
containing neither recognized shape (no network access is modelled at
all: the function is pure string processing). -/
theorem c7_extract_video_id :
    extract_video_id "https://www.youtube.com/watch?v=abc123&t=5" = .ok "abc123" ∧
      extract_video_id "https://youtu.be/abc123?t=5" = .ok "abc123" ∧
      ∀ url : String, hasSub "watch?v=".data url.data = false →
        hasSub "youtu.be/".data url.data = false →
        extract_video_id url = .error .invalidLink := by
  refine ⟨rfl, rfl, fun url h1 h2 => ?_⟩
  simp [extract_video_id, h1, h2]

/-- C7 witness: `"https://example.com"` matches neither shape and yields
the invalid-link error. -/
theorem c7_extract_video_id_witness :
    extract_video_id "https://example.com" = .error .invalidLink :=
  c7_extract_video_id.2.2 "https://example.com" (by rfl) (by rfl)

/-- C9: `add_documents` with an empty document list fails with the
empty-input error for every store state (hence every namespace); the
error return carries no successor state and no backend call, so nothing
is embedded or stored and the store is unchanged. -/
theorem c9_empty_upsert_rejected (st : VSState) :
    add_documents st [] = .error .emptyInput := rfl

/-- C9 witness: the empty upsert is rejected on a concrete store. -/
theorem c9_empty_upsert_rejected_witness :
    add_documents stFive [] = .error .emptyInput :=
  c9_empty_upsert_rejected stFive

/-- C10: for every string containing `"watch?v="`, `extract_video_id`
does not fail: it returns the text after the last occurrence of
`"watch?v="`, cut at the first `"&"`, stripped of surrounding whitespace —
regardless of scheme or host, and taking precedence over `"youtu.be/"`
(the `watch?v=` branch is tested first and its hypothesis alone suffices). -/
theorem c10_watch_rule (url : String)
    (h : hasSub "watch?v=".data url.data = true) :
    extract_video_id url = .ok (pyStrip (beforeFirst "&" (afterLast "watch?v=" url))) := by
  simp [extract_video_id, h, beforeFirst, afterLast, pyHeadD, pyLastD]

/-- C10 witness: `"https://example.com/watch?v=x"` — a non-YouTube host —
yields `"x"` rather than an invalid-link error. -/
theorem c10_watch_rule_witness :
    extract_video_id "https://example.com/watch?v=x" = .ok "x" :=
  c10_watch_rule "https://example.com/watch?v=x" (by rfl)

/-! ## Metadata lemmas -/

/-- Lookup distributes over append, preferring the left list. -/
theorem meta_lookup_append (k : String) (m₁ m₂ : Meta) :
    (m₁ ++ m₂).lookup k = ((m₁.lookup k).or (m₂.lookup k)) := by
  induction m₁ with
  | nil => simp [List.lookup]
  | cons a m₁ ih =>
    obtain ⟨k', v'⟩ := a
    simp only [List.cons_append, List.lookup]
    cases h : k == k' <;> simp [h, ih]

/-- After `setdefault k v`, the key `k` maps to the parser's value when it
set one, and to the default `v` otherwise. -/
theorem lookup_setdefault_self (k : String) (v : MVal) (m : Meta) :
    (setdefault k v m).lookup k = some ((m.lookup k).getD v) := by
  by_cases h : hasKey k m
  · rw [setdefault, if_pos h]
    obtain ⟨w, hw⟩ :=
      Option.isSome_iff_exists.mp (show (m.lookup k).isSome = true from h)
    rw [hw]
    rfl
  · rw [setdefault, if_neg h]
    have hnone : m.lookup k = none := by
      cases hlk : m.lookup k with
      | none => rfl
      | some w =>
        exact absurd (show hasKey k m = true by simp [hasKey, hlk]) h
    rw [meta_lookup_append, hnone]
    simp [List.lookup]

/-- `setdefault` always leaves the key present. -/
theorem hasKey_setdefault_self (k : String) (v : MVal) (m : Meta) :
    hasKey k (setdefault k v m) = true := by
  simp [hasKey, lookup_setdefault_self]

/-- After `setKey k v`, the key `k` maps to `v`. -/
theorem lookup_setKey_self (k : String) (v : MVal) (m : Meta) :
    (setKey k v m).lookup k = some v := by
  induction m with
  | nil => simp [setKey, List.lookup]
  | cons a m ih =>
    obtain ⟨k', v'⟩ := a
    simp only [setKey]
    by_cases h : k' = k
    · subst h
      simp [List.lookup]
    · rw [if_neg h]
      have hne : (k == k') = false := beq_eq_false_iff_ne.mpr fun hh => h hh.symm
      simp [List.lookup, hne, ih]

/-- `setKey k v` does not disturb other keys. -/
theorem lookup_setKey_ne (k' k : String) (v : MVal) (m : Meta) (h : k' ≠ k) :
    (setKey k v m).lookup k' = m.lookup k' := by
  induction m with
  | nil =>
    have hne : (k' == k) = false := beq_eq_false_iff_ne.mpr h
    simp [setKey, List.lookup, hne]
  | cons a m ih =>
    obtain ⟨k₀, v₀⟩ := a
    simp only [setKey]
    by_cases h₀ : k₀ = k
    · subst h₀
      have hne : (k' == k₀) = false := beq_eq_false_iff_ne.mpr h
      simp [List.lookup, hne]
    · rw [if_neg h₀]
      simp only [List.lookup]
      cases hk : k' == k₀ <;> simp [hk, ih]

/-- C5: whenever the source list contains a non-URL source whose extension
is not in the supported table, `load_documents` fails with the
unsupported-source error naming an unsupported source of the list, and
returns no documents at all — including none for sources earlier in the
list (the error return carries no partial results). -/
theorem c5_fail_fast (P : Parsers) (sources : List String) (bad : String)
    (hmem : bad ∈ sources) (hbad : supported bad = false) :
    ∃ b, b ∈ sources ∧ supported b = false ∧
      load_documents P sources = .error (.unsupported b) := by
  induction sources with
  | nil => cases hmem
  | cons s rest ih =>
    by_cases hs : supported s = true
    · have hbs : bad ∈ rest := by
        rcases List.mem_cons.mp hmem with h | h
        · subst h
          rw [hs] at hbad
          cases hbad
        · exact h
      obtain ⟨b, hb1, hb2, hb3⟩ := ih hbs
      refine ⟨b, List.mem_cons_of_mem _ hb1, hb2, ?_⟩
      simp only [load_documents]
      by_cases h1 : isHttp s = true
      · rw [if_pos h1, hb3]
        rfl
      · have h1' : isHttp s = false := by
          revert h1
          cases isHttp s <;> simp
        rw [if_neg h1]
        have h2 : (extension_loaders.lookup (pyLower (pySuffix s))).isSome = true := by
          have hor : (isHttp s
              || (extension_loaders.lookup (pyLower (pySuffix s))).isSome) = true := hs
          rw [h1'] at hor
          simpa using hor
        obtain ⟨loader, hl⟩ := Option.isSome_iff_exists.mp h2
        rw [hl]
        show (load_documents P rest).map _ = _
        rw [hb3]
        rfl
    · have hss : supported s = false := by
        revert hs
        cases supported s <;> simp
      have hor : (isHttp s
          || (extension_loaders.lookup (pyLower (pySuffix s))).isSome) = false := hss
      obtain ⟨h1, h2⟩ := Bool.or_eq_false_iff.mp hor
      refine ⟨s, List.mem_cons_self s rest, hss, ?_⟩
      simp only [load_documents]
      rw [if_neg (by simp [h1])]
      have h2' : extension_loaders.lookup (pyLower (pySuffix s)) = none := by
        cases hlk : extension_loaders.lookup (pyLower (pySuffix s)) with
        | none => rfl
        | some l =>
          rw [hlk] at h2
          cases h2
      rw [h2']

/-- C5 witness: `["a.pdf", "bad.xyz"]` fails with the error naming
`"bad.xyz"`, and nothing from `"a.pdf"` is returned. -/
theorem c5_fail_fast_witness :
    load_documents oneDocParsers ["a.pdf", "bad.xyz"]
      = .error (.unsupported "bad.xyz") := by
  obtain ⟨b, hb, hsup, herr⟩ :=
    c5_fail_fast oneDocParsers ["a.pdf", "bad.xyz"] "bad.xyz" (by decide) (by decide)
  rcases List.mem_cons.mp hb with h | h
  · subst h
    rw [show supported "a.pdf" = true from rfl] at hsup
    cases hsup
  · rcases List.mem_cons.mp h with h' | h'
    · subst h'
      exact herr
    · cases h'

/-- C6 counterexample: the `.pdf` handler applied to a parser output that
did not classify the document yields a document without any
`file_type` metadata, contradicting the claim that every handler in the
extension table — "including the .pdf and .txt handlers" — sets
`metadata["file_type"]` when the parser did not. -/
theorem c6_metadata_counterexample :
    load_from_pdf oneDocParsers "a.pdf"
        = [⟨"content", [("source", MVal.str "a.pdf")]⟩] ∧
      hasKey "file_type" [("source", MVal.str "a.pdf")] = false :=
  ⟨rfl, by decide⟩

/-- C6 (amended): every format handler ensures `metadata["source"]`
(defaulting to the literal source string when the underlying parser did
not set it — made precise by the final `setdefault` conjunct), and the
docx/doc, csv, json, markdown, html and python handlers set
`metadata["file_type"]` to their format tag; the `.pdf` and `.txt`
handlers ensure only `source` and set no `file_type` (see the
counterexample). -/
theorem c6_metadata_amended (P : Parsers) (p : String) :
    (∀ d ∈ load_from_pdf P p, hasKey "source" d.meta = true) ∧
      (∀ d ∈ load_from_txt P p, hasKey "source" d.meta = true) ∧
      (∀ d ∈ load_from_docx P p, hasKey "source" d.meta = true ∧
        d.meta.lookup "file_type" = some (.str "docx")) ∧
      (∀ d ∈ load_from_csv P p, hasKey "source" d.meta = true ∧
        d.meta.lookup "file_type" = some (.str "csv")) ∧
      (∀ d ∈ load_from_json P p, hasKey "source" d.meta = true ∧
        d.meta.lookup "file_type" = some (.str "json")) ∧
      (∀ d ∈ load_from_markdown P p, hasKey "source" d.meta = true ∧
        d.meta.lookup "file_type" = some (.str "markdown")) ∧
      (∀ d ∈ load_from_html P p, hasKey "source" d.meta = true ∧
        d.meta.lookup "file_type" = some (.str "html")) ∧
      (∀ d ∈ load_from_python P p, hasKey "source" d.meta = true ∧
        d.meta.lookup "file_type" = some (.str "python")) ∧
      (∀ (m : Meta) (v : MVal),
        (setdefault "source" v m).lookup "source" = some ((m.lookup "source").getD v)) := by
  have hsrc : ∀ (m : Meta) (tag : String),
      hasKey "source" (setKey "file_type" (.str tag) (setdefault "source" (.str p) m)) = true := by
    intro m tag
    simp [hasKey, lookup_setKey_ne "source" "file_type" _ _ (by decide),
      lookup_setdefault_self]
  refine ⟨?_, ?_, ?_, ?_, ?_, ?_, ?_, ?_, fun m v => lookup_setdefault_self _ _ _⟩
  · intro d hd
    obtain ⟨d₀, _, rfl⟩ := List.mem_map.mp hd
    exact hasKey_setdefault_self _ _ _
  · intro d hd
    obtain ⟨d₀, _, rfl⟩ := List.mem_map.mp hd
    exact hasKey_setdefault_self _ _ _
  · intro d hd
    obtain ⟨d₀, _, rfl⟩ := List.mem_map.mp hd
    exact ⟨hsrc d₀.meta "docx", lookup_setKey_self _ _ _⟩
  · intro d hd
    obtain ⟨d₀, _, rfl⟩ := List.mem_map.mp hd
    exact ⟨hsrc d₀.meta "csv", lookup_setKey_self _ _ _⟩
  · intro d hd
    rw [load_from_json, List.mem_singleton] at hd
    subst hd
    exact ⟨rfl, rfl⟩
  · intro d hd
    obtain ⟨d₀, _, rfl⟩ := List.mem_map.mp hd
    exact ⟨hsrc d₀.meta "markdown", lookup_setKey_self _ _ _⟩
  · intro d hd
    obtain ⟨d₀, _, rfl⟩ := List.mem_map.mp hd
    exact ⟨hsrc d₀.meta "html", lookup_setKey_self _ _ _⟩
  · intro d hd
    obtain ⟨d₀, _, rfl⟩ := List.mem_map.mp hd
    exact ⟨hsrc d₀.meta "python", lookup_setKey_self _ _ _⟩

/-- C6 amended witness: the docx handler on a parser output with empty
metadata yields `source` and `file_type = "docx"`. -/
theorem c6_metadata_amended_witness :
    hasKey "source"
        (Document.mk "content"
          [("source", MVal.str "a.docx"), ("file_type", MVal.str "docx")]).meta = true ∧
      (Document.mk "content"
          [("source", MVal.str "a.docx"), ("file_type", MVal.str "docx")]).meta.lookup
          "file_type" = some (MVal.str "docx") :=
  (c6_metadata_amended oneDocParsers "a.docx").2.2.1
    ⟨"content", [("source", MVal.str "a.docx"), ("file_type", MVal.str "docx")]⟩
    (by decide)

/-- C8: every chunk of the transcript pipeline whose content matches
`[<float>s]` gets `metadata["timestamp_start"]` set to the value of the
first such occurrence, and a chunk without any marker is returned without
that key (no error); in particular the merged transcript
`"[0.0s] hello\n[2.5s] world"`, split with the default chunk size 400
(large enough for both lines), yields exactly one chunk whose
`timestamp_start` is the decimal `0.0`, whose value is `0`. -/
theorem c8_timestamp_mark :
    (∀ (cfg : SplitterCfg) (transcript : List TranscriptEntry) (url : String)
        (ch : Document), ch ∈ process_video cfg transcript url →
        (∀ d : Dec, findTs ch.content.data = some d →
          ch.meta.lookup "timestamp_start" = some (.num d)) ∧
          (findTs ch.content.data = none →
            ch.meta.lookup "timestamp_start" = none)) ∧
      process_video ⟨400, 50⟩
          [⟨"hello", ⟨0, 0⟩, ⟨0, 0⟩⟩, ⟨"world", ⟨25, 1⟩, ⟨0, 0⟩⟩] "u"
        = [⟨"[0.0s] hello\n[2.5s] world",
            [("source", .str "u"), ("type", .str "youtube_transcript"),
             ("timestamp_start", .num ⟨0, 1⟩)]⟩] ∧
      Dec.val ⟨0, 1⟩ = 0 := by
  refine ⟨?_, by decide, by norm_num [Dec.val]⟩
  intro cfg transcript url ch hch
  simp only [process_video, List.mem_map] at hch
  obtain ⟨ch₀, hch₀, rfl⟩ := hch
  have hmeta : ch₀.meta
      = [("source", MVal.str url), ("type", MVal.str "youtube_transcript")] := by
    simp only [chunk_document, split_documents, List.flatMap_cons, List.flatMap_nil,
      List.append_nil, List.mem_map] at hch₀
    obtain ⟨c, _, rfl⟩ := hch₀
    rfl
  cases hts : findTs ch₀.content.data with
  | some d =>
    simp only [hts]
    constructor
    · intro d' hd'
      injection hd' with hd2
      rw [← hd2]
      exact lookup_setKey_self _ _ _
    · intro hnone
      cases hnone
  | none =>
    simp only [hts]
    constructor
    · intro d' hd'
      cases hd'
    · intro _
      rw [hmeta]
      have h1 : (("timestamp_start" : String) == "source") = false := by decide
      have h2 : (("timestamp_start" : String) == "type") = false := by decide
      simp [List.lookup, h1, h2]

/-- C8 witness: the single chunk of the concrete transcript example
carries `timestamp_start = 0.0`. -/
theorem c8_timestamp_mark_witness :
    (Document.mk "[0.0s] hello\n[2.5s] world"
        [("source", MVal.str "u"), ("type", MVal.str "youtube_transcript"),
         ("timestamp_start", MVal.num ⟨0, 1⟩)]).meta.lookup "timestamp_start"
      = some (MVal.num ⟨0, 1⟩) :=
  (c8_timestamp_mark.1 ⟨400, 50⟩
      [⟨"hello", ⟨0, 0⟩, ⟨0, 0⟩⟩, ⟨"world", ⟨25, 1⟩, ⟨0, 0⟩⟩] "u"
      ⟨"[0.0s] hello\n[2.5s] world",
       [("source", MVal.str "u"), ("type", MVal.str "youtube_transcript"),
        ("timestamp_start", MVal.num ⟨0, 1⟩)]⟩ (by decide)).1 ⟨0, 1⟩ (by decide)

end GenAI
